import Mathlib

/-!
Verification of the aeacus `crypto.go` obfuscation pipeline.

Strings in Go are byte sequences; we model every textual or binary value as a
`List Nat` of bytes.  The Go standard-library primitives used by `crypto.go`
(`crypto/sha256`, `compress/zlib`, `crypto/aes` + `crypto/cipher` GCM, and the
random nonce source) are external to the repository; they are modelled
abstractly as the fields of a `CryptoEnv`, and the repository's functions are
defined over such an environment, mirroring the Go control flow line by line.
The random nonce drawn inside `encryptString` is modelled as an explicit
parameter.  The build-time constants `randomString`, `byteKey` and
`randomBytes` are also carried in the environment (they are regenerated for
every release, so theorems quantify over them); the shipped placeholder values
appear in the concrete example environments below.
-/

/-- Modelled from the spec: the repository's `xor` helper is not under `src/`.
Spec section 4.3: `apply(key, data)` with `output[i] = data[i] XOR
key[i mod len(key)]`; the output has the length of `data`.  `xorMaskAux`
carries the running index `i`. -/
def xorMaskAux (key : List Nat) : Nat → List Nat → List Nat
  | _, [] => []
  | i, b :: rest => (b ^^^ key.getD (i % key.length) 0) :: xorMaskAux key (i + 1) rest

/-- Modelled from the spec: repeating-key XOR mask (spec section 4.3), the
embedding of the repository's `xor(key, data)` helper. -/
def xorMask (key data : List Nat) : List Nat :=
  xorMaskAux key 0 data

/-- Hexadecimal digit character (lowercase) for a nibble value. -/
def hexChar (n : Nat) : Nat :=
  if n < 10 then 48 + n else 87 + n

/-- Modelled from the spec: the repository's `hexEncode` helper is not under
`src/`.  Spec section 4.5: standard hexadecimal encoding, two lowercase digit
characters per byte. -/
def hexEncode (l : List Nat) : List Nat :=
  l.foldr (fun b acc => hexChar (b / 16) :: hexChar (b % 16) :: acc) []

/-- Value of one hexadecimal digit character; standard hex decoding accepts
both lowercase and uppercase letters (as Go's `encoding/hex` does). -/
def hexDigitVal (c : Nat) : Option Nat :=
  if 48 ≤ c ∧ c ≤ 57 then some (c - 48)
  else if 97 ≤ c ∧ c ≤ 102 then some (c - 87)
  else if 65 ≤ c ∧ c ≤ 70 then some (c - 55)
  else none

/-- Modelled from the spec: the repository's `hexDecode` helper is not under
`src/`.  Spec section 4.5: standard hexadecimal decode, rejecting odd-length
or non-hex-digit input with a format error. -/
def hexDecode : List Nat → Except String (List Nat)
  | [] => .ok []
  | [_] => .error "odd length hex string"
  | a :: b :: rest =>
    match hexDigitVal a, hexDigitVal b with
    | some x, some y =>
      match hexDecode rest with
      | .ok d => .ok ((16 * x + y) :: d)
      | .error e => .error e
    | _, _ => .error "invalid hex byte"

/-- The ASCII whitespace bytes of Go's `strings.TrimSpace` fast path (its
`asciiSpace` table): tab, newline, vertical tab, form feed, carriage return
and space. -/
def isSpace (b : Nat) : Bool :=
  b == 9 || b == 10 || b == 11 || b == 12 || b == 13 || b == 32

/-- Model of `unicode.IsSpace` from the Go standard library: the Unicode
White_Space code points — the six ASCII whitespace characters, U+0085, U+00A0,
U+1680, U+2000 through U+200A, U+2028, U+2029, U+202F, U+205F and U+3000. -/
def isSpaceRune (r : Nat) : Bool :=
  if r = 9 ∨ r = 10 ∨ r = 11 ∨ r = 12 ∨ r = 13 ∨ r = 32 ∨ r = 133 ∨
      r = 160 ∨ r = 5760 ∨ (8192 ≤ r ∧ r ≤ 8202) ∨ r = 8232 ∨ r = 8233 ∨
      r = 8239 ∨ r = 8287 ∨ r = 12288 then true else false

/-- Model of `utf8.RuneStart`: a byte is a rune start unless it is a UTF-8
continuation byte (high bits 10). -/
def runeStart (b : Nat) : Bool :=
  b < 128 || 192 ≤ b

/-- Model of `utf8.DecodeRune` from the Go standard library: decode the first
rune of a byte sequence, returning the rune and its encoded size.  Invalid
input — a continuation or out-of-range lead byte, a malformed or truncated
sequence, an overlong encoding or a surrogate — yields the replacement rune
U+FFFD with size 1, exactly as Go's `first`/`acceptRanges` tables do;
the empty input yields `none` (Go's size-0 case, never reached by the
trimmers below). -/
def decodeRune : List Nat → Option (Nat × Nat)
  | [] => none
  | b0 :: rest =>
    if b0 < 128 then some (b0, 1)
    else if b0 < 194 then some (65533, 1)
    else if b0 < 224 then
      match rest with
      | b1 :: _ =>
        if 128 ≤ b1 ∧ b1 < 192 then some ((b0 - 192) * 64 + (b1 - 128), 2)
        else some (65533, 1)
      | [] => some (65533, 1)
    else if b0 < 240 then
      match rest with
      | b1 :: b2 :: _ =>
        if (if b0 = 224 then 160 else 128) ≤ b1 ∧
            b1 ≤ (if b0 = 237 then 159 else 191) ∧ 128 ≤ b2 ∧ b2 < 192 then
          some ((b0 - 224) * 4096 + (b1 - 128) * 64 + (b2 - 128), 3)
        else some (65533, 1)
      | _ => some (65533, 1)
    else if b0 < 245 then
      match rest with
      | b1 :: b2 :: b3 :: _ =>
        if (if b0 = 240 then 144 else 128) ≤ b1 ∧
            b1 ≤ (if b0 = 244 then 143 else 191) ∧ 128 ≤ b2 ∧ b2 < 192 ∧
            128 ≤ b3 ∧ b3 < 192 then
          some ((b0 - 240) * 262144 + (b1 - 128) * 4096 + (b2 - 128) * 64 +
            (b3 - 128), 4)
        else some (65533, 1)
      | _ => some (65533, 1)
    else some (65533, 1)

/-- The backwards scan of `utf8.DecodeLastRune`: the largest index in
`[lim, hi]` holding a rune-start byte; when none exists, Go's loop leaves
`start = lim - 1`, clamped to 0. -/
def lastRuneStartIdx (s : List Nat) : Nat → Nat → Nat
  | hi, lim =>
    if hi < lim then (if lim = 0 then 0 else lim - 1)
    else if runeStart (s.getD hi 0) then hi
    else
      match hi with
      | 0 => 0
      | h + 1 => lastRuneStartIdx s h lim

/-- Model of `utf8.DecodeLastRune` from the Go standard library: an ASCII
final byte decodes directly; otherwise scan back at most `utf8.UTFMax` (4)
bytes for a rune start, decode forward from it, and return the replacement
rune with size 1 when the decoded size does not reach the end. -/
def decodeLastRune (s : List Nat) : Option (Nat × Nat) :=
  match s.getLast? with
  | none => none
  | some c =>
    if c < 128 then some (c, 1)
    else
      let start := lastRuneStartIdx s (s.length - 2) (s.length - 4)
      match decodeRune (s.drop start) with
      | some (r, n) => if start + n = s.length then some (r, n) else some (65533, 1)
      | none => some (65533, 1)

/-- Rune-by-rune left trim, the effect of Go's
`strings.TrimLeftFunc(s, unicode.IsSpace)`: repeatedly strip the leading rune
while it is whitespace.  Each step removes at least one byte, so `s.length`
iterations of fuel always suffice. -/
def trimLeftFuncAux : Nat → List Nat → List Nat
  | 0, s => s
  | k + 1, s =>
    match decodeRune s with
    | none => s
    | some (r, n) => if isSpaceRune r then trimLeftFuncAux k (s.drop n) else s

/-- Left trim of Unicode whitespace runes (`strings.TrimLeftFunc` with
`unicode.IsSpace`). -/
def trimLeftFunc (s : List Nat) : List Nat :=
  trimLeftFuncAux s.length s

/-- Rune-by-rune right trim, the effect of Go's
`strings.TrimRightFunc(s, unicode.IsSpace)`: repeatedly strip the final rune
(per `DecodeLastRune`) while it is whitespace; fuel as in
`trimLeftFuncAux`. -/
def trimRightFuncAux : Nat → List Nat → List Nat
  | 0, s => s
  | k + 1, s =>
    match decodeLastRune s with
    | none => s
    | some (r, n) =>
      if isSpaceRune r then trimRightFuncAux k (s.take (s.length - n)) else s

/-- Right trim of Unicode whitespace runes (`strings.TrimRightFunc` with
`unicode.IsSpace`). -/
def trimRightFunc (s : List Nat) : List Nat :=
  trimRightFuncAux s.length s

/-- Model of `strings.TrimFunc(s, unicode.IsSpace)`: trim whitespace runes
from the left, then from the right. -/
def trimFunc (s : List Nat) : List Nat :=
  trimRightFunc (trimLeftFunc s)

/-- The stop scan of Go's `strings.TrimSpace`, operating on the reversed
remainder `rev` (the bytes after the start scan, reversed): skip trailing
ASCII space bytes; on an ASCII non-space byte return the remainder up to and
including it; on a non-ASCII byte fall back to the Unicode-aware trim of the
remainder up to and including that byte. -/
def trimSpaceStop : List Nat → List Nat
  | [] => []
  | c :: rest =>
    if 128 ≤ c then trimFunc (c :: rest).reverse
    else if isSpace c then trimSpaceStop rest
    else (c :: rest).reverse

/-- The start scan of Go's `strings.TrimSpace`: skip leading ASCII space
bytes; on a non-ASCII byte fall back to the Unicode-aware trim of the whole
remainder; on an ASCII non-space byte hand the remainder to the stop scan. -/
def trimSpaceStart : List Nat → List Nat
  | [] => []
  | c :: rest =>
    if 128 ≤ c then trimFunc (c :: rest)
    else if isSpace c then trimSpaceStart rest
    else trimSpaceStop (c :: rest).reverse

/-- Model of Go's `strings.TrimSpace` (crypto.go line 274): the ASCII fast
path over both ends, falling back to `TrimFunc(·, unicode.IsSpace)` over
UTF-8 runes when a non-ASCII byte is met at either end. -/
def trimSpace (s : List Nat) : List Nat :=
  trimSpaceStart s

/-- Pure ASCII both-ends whitespace trim: drop ASCII whitespace from the
left, then from the right (via reversal).  `trimSpace` coincides with it on
sequences of ASCII bytes, where the Unicode fallback is unreachable. -/
def trimAscii (l : List Nat) : List Nat :=
  ((l.dropWhile isSpace).reverse.dropWhile isSpace).reverse

/-- Abstract interface to the external Go standard-library primitives used by
`crypto.go`, together with the build-time secret constants.

* `sha256` — `crypto/sha256` digest (total; Go's `hash.Write` never fails).
* `compress` — zlib compression of a byte sequence (`zlib.NewWriter` +
  `Write`; the only error path is a write failure).
* `newReaderOk` — whether `zlib.NewReader` succeeds on the given input.
* `inflate` — the result of `io.Copy` from the zlib reader: the bytes copied
  and an optional error message.
* `sealCt` — AES-GCM `Seal`: key, nonce, plaintext to ciphertext plus tag.
* `openCt` — AES-GCM `Open`: key, nonce, ciphertext plus tag to plaintext,
  `none` on authentication failure.
* `randomString`, `byteKey`, `randomBytes` — the generated constants of
  `crypto.go` (`const randomString`, `var byteKey`, `var randomBytes`). -/
structure CryptoEnv where
  sha256 : List Nat → List Nat
  compress : List Nat → Except String (List Nat)
  newReaderOk : List Nat → Bool
  inflate : List Nat → List Nat × Option String
  sealCt : List Nat → List Nat → List Nat → List Nat
  openCt : List Nat → List Nat → List Nat → Option (List Nat)
  randomString : List Nat
  byteKey : List Nat
  randomBytes : List Nat

/-- The key-derivation block inlined in both `encryptConfig` and
`decryptConfig` (crypto.go lines 52-65 and 87-100): hash the secret if it is
shorter than 64 bytes, otherwise use it verbatim.  The unreachable
`hasher.Write` error branch is dropped (the digest is total). -/
def configKeyOf (E : CryptoEnv) (s : List Nat) : List Nat :=
  if s.length < 64 then E.sha256 s else s

/-- The derived secret key actually used by the config pipeline. -/
def configKey (E : CryptoEnv) : List Nat :=
  configKeyOf E E.randomString

/-- Embedding of `tossKey` (crypto.go lines 145-148): returns `randomBytes`. -/
def tossKey (E : CryptoEnv) : List Nat :=
  E.randomBytes

/-- Embedding of `encryptString` (crypto.go lines 191-237): derive the AES key
as the SHA-256 digest of the password, pad the plaintext to a 16-byte block
multiple with space (0x20) bytes, check the block-size invariant (failing to
the empty string as the source does), create the cipher (`aes.NewCipher`
accepts key lengths 16, 24 and 32; other lengths hit the error path returning
the empty string), then return `nonce ++ Seal(...)` with the 12-byte nonce
prefixed.  The randomly drawn nonce is an explicit parameter. -/
def encryptString (E : CryptoEnv) (password nonce plainText : List Nat) : List Nat :=
  let key := E.sha256 password
  let padded := plainText ++ List.replicate (16 - plainText.length % 16) 32
  if padded.length % 16 = 0 then
    if key.length = 16 ∨ key.length = 24 ∨ key.length = 32 then
      nonce ++ E.sealCt key nonce padded
    else []
  else []

/-- Embedding of `decryptString` (crypto.go lines 241-275): derive the key,
slice the first 12 bytes as the IV — this slice is unguarded in the source, so
an input shorter than 12 bytes panics, modelled as the outer `none` — then
create the cipher (invalid key length returns the empty string), `Open` the
remainder (authentication failure returns the empty string), and finally
`strings.TrimSpace` the plaintext. -/
def decryptString (E : CryptoEnv) (password ciphertext : List Nat) : Option (List Nat) :=
  let key := E.sha256 password
  if ciphertext.length < 12 then none
  else
    let iv := ciphertext.take 12
    let ct := ciphertext.drop 12
    if key.length = 16 ∨ key.length = 24 ∨ key.length = 32 then
      match E.openCt key iv ct with
      | none => some []
      | some pt => some (trimSpace pt)
    else some []

/-- Embedding of `encryptConfig` (crypto.go lines 51-83): derive the config
key, zlib-compress the plaintext (propagating a write error), XOR the
compressed bytes with the key, and AES-GCM encrypt with `byteKey`. -/
def encryptConfig (E : CryptoEnv) (nonce plainText : List Nat) : Except String (List Nat) :=
  let key := configKey E
  match E.compress plainText with
  | .error e => .error e
  | .ok comp => .ok (encryptString E E.byteKey nonce (xorMask key comp))

/-- Embedding of `decryptConfig` (crypto.go lines 86-142): AES-GCM decrypt
with `byteKey` (a panic inside `decryptString` propagates as the outer
`none`), XOR with the config key, create the zlib reader (failure yields
"error creating zlib reader"), copy out of it — an "unexpected EOF" error is
swallowed, any other copy error is fatal — and finally reject an empty
decompressed result. -/
def decryptConfig (E : CryptoEnv) (cipherText : List Nat) : Option (Except String (List Nat)) :=
  let key := configKey E
  match decryptString E E.byteKey cipherText with
  | none => none
  | some ct1 =>
    let ct2 := xorMask key ct1
    if E.newReaderOk ct2 = true then
      match E.inflate ct2 with
      | (buf, some e) =>
        if e = "unexpected EOF" then
          if buf = [] then some (.error "decrypted config is empty") else some (.ok buf)
        else
          some (.error ("error decrypting or decompressing zlib data: " ++ e))
      | (buf, none) =>
        if buf = [] then some (.error "decrypted config is empty") else some (.ok buf)
    else some (.error "error creating zlib reader")

/-- Embedding of `obfuscateData` (crypto.go lines 153-165).  The in-place
`*datum` update is made explicit: the result pairs the returned error with the
final value of the datum.  On an `encryptConfig` error the datum has been
overwritten with the empty string `encryptConfig` returned. -/
def obfuscateData (E : CryptoEnv) (nonce datum : List Nat) : Except String Unit × List Nat :=
  if datum = [] then (.ok (), datum)
  else
    match encryptConfig E nonce datum with
    | .ok enc => (.ok (), hexEncode (xorMask (tossKey E) enc))
    | .error e => (.error e, [])

/-- Embedding of `deobfuscateData` (crypto.go lines 168-186), with the
in-place update explicit as in `obfuscateData` and a possible panic inside
`decryptConfig` modelled as the outer `none`.  On a `decryptConfig` error the
datum holds the empty string `decryptConfig` returned; on a `hexDecode` error
it holds the decoder's error value (empty in this model). -/
def deobfuscateData (E : CryptoEnv) (datum : List Nat) : Option (Except String Unit × List Nat) :=
  if datum = [] then some (.ok (), datum)
  else
    match hexDecode datum with
    | .error e => some (.error e, [])
    | .ok dec =>
      match decryptConfig E (xorMask (tossKey E) dec) with
      | none => none
      | some (.error e) => some (.error e, [])
      | some (.ok v) => some (.ok (), v)

/-- Well-behavedness of the external primitives: the properties of the Go
standard-library implementations that the pipeline relies on.  Closed byte
sequences (all entries below 256), SHA-256 digests of length 32, zlib
decompression inverting compression, `zlib.NewReader` rejecting empty input,
and AES-GCM `Open` inverting `Seal`. -/
structure GoodEnv (E : CryptoEnv) : Prop where
  shaLen : ∀ s, (E.sha256 s).length = 32
  shaLt : ∀ s, ∀ b ∈ E.sha256 s, b < 256
  compressLt : ∀ v c, E.compress v = .ok c → (∀ b ∈ v, b < 256) → ∀ b ∈ c, b < 256
  inflateInv : ∀ v c, E.compress v = .ok c → E.newReaderOk c = true ∧ E.inflate c = (v, none)
  emptyReader : E.newReaderOk [] = false
  sealOpen : ∀ k n p, E.openCt k n (E.sealCt k n p) = some p
  sealLt : ∀ k n p b, (∀ x ∈ n, x < 256) → (∀ x ∈ p, x < 256) → b ∈ E.sealCt k n p → b < 256
  tossLt : ∀ b ∈ E.randomBytes, b < 256
  rsLt : ∀ b ∈ E.randomString, b < 256

/-- Toy authenticated cipher used by the concrete example environments: the
tag is an additive checksum of nonce and plaintext modulo 256, appended to the
plaintext. -/
def sealC (_k n p : List Nat) : List Nat :=
  p ++ [(n.sum + p.sum) % 256]

/-- Opening counterpart of `sealC`: recompute and compare the checksum tag. -/
def openC (_k n c : List Nat) : Option (List Nat) :=
  if c.getLast? = some ((n.sum + c.dropLast.sum) % 256) then some c.dropLast else none

/-- Concrete example environment: constant-zero digest, compression appending
a `255` marker byte, inflation dropping the final byte, the checksum cipher,
and the shipped placeholder constants of `crypto.go` ("HASH_HERE", `{0x01}`,
`{1}`). -/
def envA : CryptoEnv where
  sha256 := fun _ => List.replicate 32 0
  compress := fun v => .ok (v ++ [255])
  newReaderOk := fun c => !c.isEmpty
  inflate := fun c => (c.dropLast, none)
  sealCt := sealC
  openCt := openC
  randomString := [72, 65, 83, 72, 95, 72, 69, 82, 69]
  byteKey := [1]
  randomBytes := [1]

/-- Variant of `envA` whose compression marker is the ASCII byte 90, so that
the masked compressed payload ends in an ASCII non-whitespace byte. -/
def envW : CryptoEnv :=
  { envA with compress := fun v => .ok (v ++ [90]) }

/-- Environment modelling a release build whose derived config key begins
with byte 88 (0x58): the compressed stream's leading header byte 120 (0x78,
the CMF byte every real zlib stream starts with) is masked to the space byte
32 (0x20).  The reader validates the header byte of its input, as
`zlib.NewReader` validates its two-byte header before any copying, and
inflation strips the header and returns the remaining bytes. -/
def envC1x : CryptoEnv :=
  { envA with
    sha256 := fun _ => 88 :: List.replicate 31 0
    compress := fun v => .ok (120 :: v)
    newReaderOk := fun c => c.headD 0 == 120
    inflate := fun c => (c.drop 1, none) }

/-- Variant of `envA` whose inflate stage always reports "unexpected EOF"
after copying all but the final byte. -/
def envE : CryptoEnv :=
  { envA with inflate := fun c => (c.dropLast, some "unexpected EOF") }

/-- Variant of `envA` whose inflate stage copies nothing. -/
def envE2 : CryptoEnv :=
  { envA with inflate := fun _ => ([], none) }

/-- Variant of `envA` whose compression stage fails. -/
def envF : CryptoEnv :=
  { envA with compress := fun _ => .error "boom" }

/-- The all-zero 12-byte nonce used by the concrete examples. -/
def nonce0 : List Nat := List.replicate 12 0

/-- Concrete stored artifact: obfuscation of the one-byte value `[65]` under
`envA`. -/
def artifactA : List Nat := (obfuscateData envA nonce0 [65]).2

/-- Concrete stored artifact: obfuscation of the one-byte value `[65]` under
`envC1x`, where the masked stream's leading byte is a space. -/
def artifactC1x : List Nat := (obfuscateData envC1x nonce0 [65]).2

/-- Concrete envelope whose checksum tag does not verify under `envA`. -/
def ctC3 : List Nat := nonce0 ++ [7, 9]

/-- Concrete envelope that decrypts under `envA` to a plaintext with a leading
space byte. -/
def ctC4 : List Nat := nonce0 ++ [32, 65, 97]

/-- Concrete envelope that decrypts under `envA` (and its variants) to the
two-byte sequence `[65, 255]`. -/
def ctC5 : List Nat := nonce0 ++ [65, 255, 64]

/-- Concrete stored datum that hex-decodes to thirteen `1` bytes. -/
def datumC10 : List Nat := hexEncode (List.replicate 13 1)

/-- Follows the spec's words for claim C4 (a refinement comparison, not a
source embedding): keep the bytes of `l` from its start up to and including
its last non-whitespace byte, trimming only the trailing whitespace. -/
def specRightTrimOnly (l : List Nat) : List Nat :=
  (l.reverse.dropWhile isSpace).reverse

theorem xorMaskAux_length (k : List Nat) (i : Nat) (d : List Nat) :
    (xorMaskAux k i d).length = d.length := by
  induction d generalizing i with
  | nil => rfl
  | cons b rest ih => simp [xorMaskAux, ih]

theorem xorMask_length (k d : List Nat) : (xorMask k d).length = d.length :=
  xorMaskAux_length k 0 d

theorem xorMaskAux_xorMaskAux (k : List Nat) (i : Nat) (d : List Nat) :
    xorMaskAux k i (xorMaskAux k i d) = d := by
  induction d generalizing i with
  | nil => rfl
  | cons b rest ih => simp [xorMaskAux, Nat.xor_cancel_right, ih]

theorem xorMask_xorMask (k d : List Nat) : xorMask k (xorMask k d) = d :=
  xorMaskAux_xorMaskAux k 0 d

theorem getD_lt_256 (k : List Nat) (j : Nat) (hk : ∀ b ∈ k, b < 256) :
    k.getD j 0 < 256 := by
  by_cases h : j < k.length
  · rw [List.getD_eq_getElem _ _ h]
    exact hk _ (List.getElem_mem h)
  · rw [List.getD_eq_default _ _ (Nat.le_of_not_lt h)]
    omega

theorem xorMaskAux_lt (k : List Nat) (i : Nat) (d : List Nat)
    (hk : ∀ b ∈ k, b < 256) (hd : ∀ b ∈ d, b < 256) :
    ∀ b ∈ xorMaskAux k i d, b < 256 := by
  induction d generalizing i with
  | nil => intro b hb; exact absurd hb (List.not_mem_nil b)
  | cons a rest ih =>
    intro b hb
    rw [xorMaskAux, List.mem_cons] at hb
    rcases hb with hb | hb
    · have h1 : a < 256 := hd a (List.mem_cons_self a rest)
      have h2 : k.getD (i % k.length) 0 < 256 := getD_lt_256 k _ hk
      subst hb
      calc a ^^^ k.getD (i % k.length) 0 < 2 ^ 8 :=
            Nat.xor_lt_two_pow h1 h2
        _ = 256 := rfl
    · exact ih (i + 1) (fun x hx => hd x (List.mem_cons_of_mem a hx)) b hb

theorem xorMask_lt (k d : List Nat) (hk : ∀ b ∈ k, b < 256)
    (hd : ∀ b ∈ d, b < 256) : ∀ b ∈ xorMask k d, b < 256 :=
  xorMaskAux_lt k 0 d hk hd

theorem hexDigitVal_hexChar : ∀ n, n < 16 → hexDigitVal (hexChar n) = some n := by
  decide

theorem hexDecode_hexEncode (l : List Nat) (hl : ∀ b ∈ l, b < 256) :
    hexDecode (hexEncode l) = .ok l := by
  induction l with
  | nil => rfl
  | cons a rest ih =>
    have ha : a < 256 := hl a (List.mem_cons_self a rest)
    have h1 : hexDigitVal (hexChar (a / 16)) = some (a / 16) :=
      hexDigitVal_hexChar _ (by omega)
    have h2 : hexDigitVal (hexChar (a % 16)) = some (a % 16) :=
      hexDigitVal_hexChar _ (by omega)
    have ih' := ih (fun x hx => hl x (List.mem_cons_of_mem a hx))
    show hexDecode (hexChar (a / 16) :: hexChar (a % 16) :: hexEncode rest) = _
    rw [hexDecode, h1, h2, ih']
    have hda : 16 * (a / 16) + a % 16 = a := by omega
    show Except.ok ((16 * (a / 16) + a % 16) :: rest) = Except.ok (a :: rest)
    rw [hda]

theorem hexEncode_length (l : List Nat) : (hexEncode l).length = 2 * l.length := by
  induction l with
  | nil => rfl
  | cons a rest ih => simp [hexEncode, List.foldr] at ih ⊢; omega

theorem dropWhile_replicate_append (p : Nat → Bool) (a : Nat) (n : Nat)
    (x : List Nat) (hp : p a = true) :
    (List.replicate n a ++ x).dropWhile p = x.dropWhile p := by
  induction n with
  | zero => rfl
  | succ m ih =>
    rw [List.replicate_succ, List.cons_append, List.dropWhile_cons_of_pos hp, ih]

theorem head?_dropWhile_neg (p : Nat → Bool) (l : List Nat) (x : Nat)
    (h : (l.dropWhile p).head? = some x) : p x = false := by
  induction l with
  | nil => cases h
  | cons a rest ih =>
    by_cases hp : p a = true
    · rw [List.dropWhile_cons_of_pos hp] at h
      exact ih h
    · rw [List.dropWhile_cons_of_neg hp] at h
      simp at h
      subst h
      exact Bool.eq_false_iff.mpr hp

theorem trimSpaceStop_replicate (n : Nat) (x : List Nat) :
    trimSpaceStop (List.replicate n 32 ++ x) = trimSpaceStop x := by
  induction n with
  | zero => rfl
  | succ m ih =>
    rw [List.replicate_succ, List.cons_append]
    simp only [trimSpaceStop]
    rw [if_neg (by omega), if_pos (by decide)]
    exact ih

theorem trim_concat_spaces (l : List Nat) (n : Nat) (hne : l ≠ [])
    (hh1 : l.headD 0 < 128) (hh2 : isSpace (l.headD 0) = false)
    (hl1 : l.getLastD 0 < 128) (hl2 : isSpace (l.getLastD 0) = false) :
    trimSpace (l ++ List.replicate n 32) = l := by
  obtain ⟨a, t, rfl⟩ := List.exists_cons_of_ne_nil hne
  have ha1 : a < 128 := by simpa using hh1
  have ha2 : isSpace a = false := by simpa using hh2
  show trimSpaceStart ((a :: t) ++ List.replicate n 32) = a :: t
  rw [List.cons_append]
  simp only [trimSpaceStart]
  rw [if_neg (by omega), if_neg (by simp [ha2]), List.reverse_cons,
    List.reverse_append, List.reverse_replicate, List.append_assoc,
    ← List.reverse_cons, trimSpaceStop_replicate]
  obtain ⟨b, u, hbu⟩ := List.exists_cons_of_ne_nil
    (l := (a :: t).reverse) (by simp)
  have hb0 : (a :: t).getLastD 0 = b := by
    have h1 := List.head?_reverse (a :: t)
    rw [hbu] at h1
    rw [List.getLastD_eq_getLast?, ← h1]
    rfl
  have hb1 : b < 128 := by rw [← hb0]; exact hl1
  have hb2 : isSpace b = false := by rw [← hb0]; exact hl2
  rw [hbu]
  simp only [trimSpaceStop]
  rw [if_neg (by omega), if_neg (by simp [hb2]), ← hbu, List.reverse_reverse]

theorem trimSpaceStop_ascii (rev : List Nat) (h : ∀ x ∈ rev, x < 128) :
    trimSpaceStop rev = (rev.dropWhile isSpace).reverse := by
  induction rev with
  | nil => rfl
  | cons c rest ih =>
    have hc : c < 128 := h c (List.mem_cons_self c rest)
    have h' : ∀ x ∈ rest, x < 128 := fun x hx => h x (List.mem_cons_of_mem c hx)
    simp only [trimSpaceStop]
    rw [if_neg (by omega)]
    by_cases hs : isSpace c = true
    · rw [if_pos hs, List.dropWhile_cons_of_pos hs]
      exact ih h'
    · rw [if_neg hs, List.dropWhile_cons_of_neg hs]

theorem trimSpace_ascii (s : List Nat) (h : ∀ x ∈ s, x < 128) :
    trimSpace s = trimAscii s := by
  induction s with
  | nil => rfl
  | cons c rest ih =>
    have hc : c < 128 := h c (List.mem_cons_self c rest)
    have h' : ∀ x ∈ rest, x < 128 := fun x hx => h x (List.mem_cons_of_mem c hx)
    show trimSpaceStart (c :: rest) = trimAscii (c :: rest)
    simp only [trimSpaceStart]
    rw [if_neg (by omega)]
    by_cases hs : isSpace c = true
    · rw [if_pos hs]
      have e1 : trimSpaceStart rest = trimAscii rest := ih h'
      rw [e1]
      unfold trimAscii
      rw [List.dropWhile_cons_of_pos hs]
    · rw [if_neg hs]
      rw [trimSpaceStop_ascii ((c :: rest).reverse)
        (by intro x hx; rw [List.mem_reverse] at hx; exact h x hx)]
      unfold trimAscii
      rw [List.dropWhile_cons_of_neg hs]

theorem trimLeftFuncAux_suffix (k : Nat) :
    ∀ s : List Nat, ∃ a, s = a ++ trimLeftFuncAux k s := by
  induction k with
  | zero => intro s; exact ⟨[], rfl⟩
  | succ m ih =>
    intro s
    simp only [trimLeftFuncAux]
    cases hd : decodeRune s with
    | none => exact ⟨[], rfl⟩
    | some p =>
      obtain ⟨r, n⟩ := p
      show ∃ a, s = a ++ if isSpaceRune r then trimLeftFuncAux m (s.drop n) else s
      by_cases hs : isSpaceRune r = true
      · rw [if_pos hs]
        obtain ⟨a', ha'⟩ := ih (s.drop n)
        exact ⟨s.take n ++ a', by
          rw [List.append_assoc, ← ha', List.take_append_drop]⟩
      · rw [if_neg hs]
        exact ⟨[], rfl⟩

theorem trimRightFuncAux_prefix (k : Nat) :
    ∀ s : List Nat, ∃ b, s = trimRightFuncAux k s ++ b := by
  induction k with
  | zero => intro s; exact ⟨[], (List.append_nil s).symm⟩
  | succ m ih =>
    intro s
    simp only [trimRightFuncAux]
    cases hd : decodeLastRune s with
    | none => exact ⟨[], (List.append_nil s).symm⟩
    | some p =>
      obtain ⟨r, n⟩ := p
      show ∃ b, s =
        (if isSpaceRune r then trimRightFuncAux m (s.take (s.length - n)) else s) ++ b
      by_cases hs : isSpaceRune r = true
      · rw [if_pos hs]
        obtain ⟨b', hb'⟩ := ih (s.take (s.length - n))
        refine ⟨b' ++ s.drop (s.length - n), ?_⟩
        rw [← List.append_assoc, ← hb', List.take_append_drop]
      · rw [if_neg hs]
        exact ⟨[], (List.append_nil s).symm⟩

theorem trimFunc_infix (s : List Nat) : ∃ a b, s = a ++ trimFunc s ++ b := by
  obtain ⟨a, ha⟩ := trimLeftFuncAux_suffix s.length s
  obtain ⟨b, hb⟩ := trimRightFuncAux_prefix (trimLeftFunc s).length (trimLeftFunc s)
  refine ⟨a, b, ?_⟩
  have e1 : trimFunc s =
      trimRightFuncAux (trimLeftFunc s).length (trimLeftFunc s) := rfl
  rw [e1, List.append_assoc, ← hb]
  exact ha

theorem trimSpaceStop_infix (rev : List Nat) :
    ∃ a b, rev.reverse = a ++ trimSpaceStop rev ++ b := by
  induction rev with
  | nil => exact ⟨[], [], rfl⟩
  | cons c rest ih =>
    simp only [trimSpaceStop]
    by_cases h1 : 128 ≤ c
    · rw [if_pos h1]
      exact trimFunc_infix (c :: rest).reverse
    · rw [if_neg h1]
      by_cases h2 : isSpace c = true
      · rw [if_pos h2]
        obtain ⟨a, b, hab⟩ := ih
        refine ⟨a, b ++ [c], ?_⟩
        rw [List.reverse_cons, hab, List.append_assoc]
      · rw [if_neg h2]
        exact ⟨[], [], by simp⟩

theorem trimSpace_infix (s : List Nat) : ∃ a b, s = a ++ trimSpace s ++ b := by
  induction s with
  | nil => exact ⟨[], [], rfl⟩
  | cons c rest ih =>
    show ∃ a b, c :: rest = a ++ trimSpaceStart (c :: rest) ++ b
    simp only [trimSpaceStart]
    by_cases h1 : 128 ≤ c
    · rw [if_pos h1]
      exact trimFunc_infix (c :: rest)
    · rw [if_neg h1]
      by_cases h2 : isSpace c = true
      · rw [if_pos h2]
        obtain ⟨a, b, hab⟩ := ih
        refine ⟨c :: a, b, ?_⟩
        have e1 : trimSpace rest = trimSpaceStart rest := rfl
        rw [e1] at hab
        conv_lhs => rw [hab]
        rfl
      · rw [if_neg h2]
        obtain ⟨a, b, hab⟩ := trimSpaceStop_infix (c :: rest).reverse
        rw [List.reverse_reverse] at hab
        exact ⟨a, b, hab⟩

theorem trimAscii_decomposition (l : List Nat) :
    ∃ a b, l = a ++ trimAscii l ++ b ∧ (∀ x ∈ a, isSpace x = true) ∧
      (∀ x ∈ b, isSpace x = true) ∧
      (∀ x, (trimAscii l).head? = some x → isSpace x = false) ∧
      (∀ x, (trimAscii l).getLast? = some x → isSpace x = false) := by
  set p := isSpace with hp
  set m := l.dropWhile p with hm
  have hsplit : l.takeWhile p ++ m = l := List.takeWhile_append_dropWhile p l
  have hrev : m.reverse.takeWhile p ++ m.reverse.dropWhile p = m.reverse :=
    List.takeWhile_append_dropWhile p m.reverse
  have htrim : trimAscii l = (m.reverse.dropWhile p).reverse := by
    unfold trimAscii
    rw [← hm]
  have hm2 : m = (m.reverse.dropWhile p).reverse ++ (m.reverse.takeWhile p).reverse := by
    have := congrArg List.reverse hrev
    rw [List.reverse_append, List.reverse_reverse] at this
    exact this.symm
  refine ⟨l.takeWhile p, (m.reverse.takeWhile p).reverse, ?_, ?_, ?_, ?_, ?_⟩
  · rw [htrim, List.append_assoc, ← hm2, hsplit]
  · intro x hx
    exact List.mem_takeWhile_imp hx
  · intro x hx
    rw [List.mem_reverse] at hx
    exact List.mem_takeWhile_imp hx
  · intro x hx
    rw [htrim] at hx
    have hcm : m.head? = some x := by
      rcases h0 : (m.reverse.dropWhile p).reverse with _ | ⟨c, u⟩
      · rw [h0] at hx; cases hx
      · rw [h0] at hx
        have hcx : c = x := by simpa using hx
        have h3 : m = (c :: u) ++ (m.reverse.takeWhile p).reverse := by
          rw [← h0, ← hm2]
        rw [h3, hcx]
        rfl
    have hdm : (l.dropWhile p).head? = some x := by rw [← hm]; exact hcm
    exact head?_dropWhile_neg p l x hdm
  · intro x hx
    rw [htrim] at hx
    rw [← List.head?_reverse, List.reverse_reverse] at hx
    exact head?_dropWhile_neg p m.reverse x hx

theorem padded_length_mod (l : List Nat) :
    (l ++ List.replicate (16 - l.length % 16) 32).length % 16 = 0 := by
  rw [List.length_append, List.length_replicate]
  omega

theorem openC_sealC (k n p : List Nat) : openC k n (sealC k n p) = some p := by
  unfold openC sealC
  rw [List.dropLast_concat, List.getLast?_concat]
  simp

theorem good_envA : GoodEnv envA := by
  constructor
  · intro s
    simp [envA]
  · intro s b hb
    simp [envA] at hb
    omega
  · intro v c hvc hv b hb
    simp only [envA, Except.ok.injEq] at hvc
    subst hvc
    rw [List.mem_append] at hb
    rcases hb with hb | hb
    · exact hv b hb
    · simp at hb
      omega
  · intro v c hvc
    simp only [envA, Except.ok.injEq] at hvc
    subst hvc
    refine ⟨by simp [envA], ?_⟩
    simp [envA, List.dropLast_concat]
  · rfl
  · intro k n p
    exact openC_sealC k n p
  · intro k n p b _hn hp hb
    simp only [envA, sealC] at hb
    rw [List.mem_append] at hb
    rcases hb with hb | hb
    · exact hp b hb
    · simp at hb
      omega
  · intro b hb
    simp [envA] at hb
    omega
  · intro b hb
    simp [envA] at hb
    omega

theorem good_envW : GoodEnv envW := by
  constructor
  · intro s
    simp [envW, envA]
  · intro s b hb
    simp [envW, envA] at hb
    omega
  · intro v c hvc hv b hb
    simp only [envW, envA, Except.ok.injEq] at hvc
    subst hvc
    rw [List.mem_append] at hb
    rcases hb with hb | hb
    · exact hv b hb
    · simp at hb
      omega
  · intro v c hvc
    simp only [envW, envA, Except.ok.injEq] at hvc
    subst hvc
    refine ⟨by simp [envW, envA], ?_⟩
    simp [envW, envA, List.dropLast_concat]
  · rfl
  · intro k n p
    exact openC_sealC k n p
  · intro k n p b _hn hp hb
    simp only [envW, envA, sealC] at hb
    rw [List.mem_append] at hb
    rcases hb with hb | hb
    · exact hp b hb
    · simp at hb
      omega
  · intro b hb
    simp [envW, envA] at hb
    omega
  · intro b hb
    simp [envW, envA] at hb
    omega

theorem good_envC1x : GoodEnv envC1x := by
  constructor
  · intro s
    simp [envC1x, envA]
  · intro s b hb
    simp [envC1x, envA] at hb
    rcases hb with hb | hb <;> omega
  · intro v c hvc hv b hb
    simp only [envC1x, envA, Except.ok.injEq] at hvc
    subst hvc
    rw [List.mem_cons] at hb
    rcases hb with hb | hb
    · omega
    · exact hv b hb
  · intro v c hvc
    simp only [envC1x, envA, Except.ok.injEq] at hvc
    subst hvc
    constructor
    · simp [envC1x, envA]
    · simp [envC1x, envA]
  · rfl
  · intro k n p
    exact openC_sealC k n p
  · intro k n p b _hn hp hb
    simp only [envC1x, envA, sealC] at hb
    rw [List.mem_append] at hb
    rcases hb with hb | hb
    · exact hp b hb
    · simp at hb
      omega
  · intro b hb
    simp [envC1x, envA] at hb
    omega
  · intro b hb
    simp [envC1x, envA] at hb
    omega

theorem encryptString_seal_eq (E : CryptoEnv) (pw nonce pt : List Nat)
    (hk : (E.sha256 pw).length = 32) :
    encryptString E pw nonce pt =
      nonce ++ E.sealCt (E.sha256 pw) nonce
        (pt ++ List.replicate (16 - pt.length % 16) 32) := by
  have hm : (pt.length + (16 - pt.length % 16)) % 16 = 0 := by omega
  simp [encryptString, hm, hk]

theorem decryptString_open_eq (E : CryptoEnv) (pw ct pt : List Nat)
    (h12 : 12 ≤ ct.length) (hk : (E.sha256 pw).length = 32)
    (hopen : E.openCt (E.sha256 pw) (ct.take 12) (ct.drop 12) = some pt) :
    decryptString E pw ct = some (trimSpace pt) := by
  have h1 : ¬ ct.length < 12 := by omega
  simp [decryptString, h1, hk, hopen]

theorem decryptString_reject_eq (E : CryptoEnv) (pw ct : List Nat)
    (h12 : 12 ≤ ct.length)
    (hopen : E.openCt (E.sha256 pw) (ct.take 12) (ct.drop 12) = none) :
    decryptString E pw ct = some [] := by
  have h1 : ¬ ct.length < 12 := by omega
  by_cases hk : (E.sha256 pw).length = 16 ∨ (E.sha256 pw).length = 24 ∨
      (E.sha256 pw).length = 32
  · simp [decryptString, h1, hk, hopen]
  · simp [decryptString, h1, hk]

theorem encryptConfig_ok_eq (E : CryptoEnv) (nonce v c : List Nat)
    (hc : E.compress v = .ok c) :
    encryptConfig E nonce v =
      .ok (encryptString E E.byteKey nonce (xorMask (configKey E) c)) := by
  simp [encryptConfig, hc]

theorem obfuscateData_ok_eq (E : CryptoEnv) (nonce v enc : List Nat)
    (hv : v ≠ []) (he : encryptConfig E nonce v = .ok enc) :
    obfuscateData E nonce v = (.ok (), hexEncode (xorMask (tossKey E) enc)) := by
  simp [obfuscateData, hv, he]

theorem decryptConfig_ok_eq (E : CryptoEnv) (ct s buf : List Nat)
    (hs : decryptString E E.byteKey ct = some s)
    (hr : E.newReaderOk (xorMask (configKey E) s) = true)
    (hi : E.inflate (xorMask (configKey E) s) = (buf, none))
    (hb : buf ≠ []) :
    decryptConfig E ct = some (.ok buf) := by
  simp [decryptConfig, hs, hr, hi, hb]

theorem deobfuscateData_ok_eq (E : CryptoEnv) (datum dec w : List Nat)
    (hne : datum ≠ []) (hdec : hexDecode datum = .ok dec)
    (hdc : decryptConfig E (xorMask (tossKey E) dec) = some (.ok w)) :
    deobfuscateData E datum = some (.ok (), w) := by
  simp [deobfuscateData, hne, hdec, hdc]

theorem deobfuscateData_err_eq (E : CryptoEnv) (datum dec : List Nat) (e : String)
    (hne : datum ≠ []) (hdec : hexDecode datum = .ok dec)
    (hdc : decryptConfig E (xorMask (tossKey E) dec) = some (.error e)) :
    deobfuscateData E datum = some (.error e, []) := by
  simp [deobfuscateData, hne, hdec, hdc]

theorem deobfuscateData_none_eq (E : CryptoEnv) (datum dec : List Nat)
    (hne : datum ≠ []) (hdec : hexDecode datum = .ok dec)
    (hdc : decryptConfig E (xorMask (tossKey E) dec) = none) :
    deobfuscateData E datum = none := by
  simp [deobfuscateData, hne, hdec, hdc]

theorem obfuscateData_err_eq (E : CryptoEnv) (nonce v : List Nat) (e : String)
    (hv : v ≠ []) (he : encryptConfig E nonce v = .error e) :
    obfuscateData E nonce v = (.error e, []) := by
  simp [obfuscateData, hv, he]

/-- Claim C1 (amended): for well-behaved primitives, the round trip
`deobfuscateData` after `obfuscateData` restores `v` with no error — provided
the XOR-masked compressed payload is nonempty and its first and last bytes
are ASCII non-whitespace (below 128 and outside the whitespace set), so that
`strings.TrimSpace` inside `decryptString` stays on its ASCII fast path at
both ends and removes exactly the block padding and no payload bytes. -/
theorem c1_roundtrip_amended (E : CryptoEnv) (hG : GoodEnv E)
    (v nonce c : List Nat)
    (Hv : ∀ b ∈ v, b < 256) (Hn12 : nonce.length = 12)
    (HnLt : ∀ b ∈ nonce, b < 256) (Hc : E.compress v = .ok c)
    (Hne : xorMask (configKey E) c ≠ [])
    (Hhead : (xorMask (configKey E) c).headD 0 < 128 ∧
      isSpace ((xorMask (configKey E) c).headD 0) = false)
    (Hlast : (xorMask (configKey E) c).getLastD 0 < 128 ∧
      isSpace ((xorMask (configKey E) c).getLastD 0) = false) :
    (obfuscateData E nonce v).1 = .ok () ∧
    deobfuscateData E ((obfuscateData E nonce v).2) = some (.ok (), v) := by
  by_cases hv0 : v = []
  · subst hv0
    constructor <;> simp [obfuscateData, deobfuscateData]
  · have hk32 : (E.sha256 E.byteKey).length = 32 := hG.shaLen _
    set pl := xorMask (configKey E) c with hpl
    set padded := pl ++ List.replicate (16 - pl.length % 16) 32 with hpadded
    set sealed := E.sealCt (E.sha256 E.byteKey) nonce padded with hsealed
    set env := nonce ++ sealed with henv
    -- the obfuscated artifact
    have he : encryptConfig E nonce v = .ok env := by
      rw [encryptConfig_ok_eq E nonce v c Hc,
        encryptString_seal_eq E E.byteKey nonce pl hk32]
    have hobf : obfuscateData E nonce v =
        (.ok (), hexEncode (xorMask (tossKey E) env)) :=
      obfuscateData_ok_eq E nonce v env hv0 he
    -- byte bounds
    have hcLt : ∀ b ∈ c, b < 256 := hG.compressLt v c Hc Hv
    have hkeyLt : ∀ b ∈ configKey E, b < 256 := by
      unfold configKey configKeyOf
      by_cases h : E.randomString.length < 64
      · simpa [h] using hG.shaLt E.randomString
      · simpa [h] using hG.rsLt
    have hplLt : ∀ b ∈ pl, b < 256 := xorMask_lt _ _ hkeyLt hcLt
    have hpaddedLt : ∀ b ∈ padded, b < 256 := by
      intro b hb
      rw [hpadded, List.mem_append] at hb
      rcases hb with hb | hb
      · exact hplLt b hb
      · rw [List.eq_of_mem_replicate hb]
        omega
    have hsealedLt : ∀ b ∈ sealed, b < 256 := fun b hb =>
      hG.sealLt _ _ _ b HnLt hpaddedLt hb
    have henvLt : ∀ b ∈ env, b < 256 := by
      intro b hb
      rw [henv, List.mem_append] at hb
      rcases hb with hb | hb
      · exact HnLt b hb
      · exact hsealedLt b hb
    have htossLt : ∀ b ∈ tossKey E, b < 256 := hG.tossLt
    have hxLt : ∀ b ∈ xorMask (tossKey E) env, b < 256 :=
      xorMask_lt _ _ htossLt henvLt
    -- deobfuscation step by step
    have hart_ne : hexEncode (xorMask (tossKey E) env) ≠ [] := by
      intro h
      have hlen := hexEncode_length (xorMask (tossKey E) env)
      rw [h, xorMask_length] at hlen
      have h2 : env.length = 12 + sealed.length := by
        rw [henv, List.length_append, Hn12]
      rw [h2] at hlen
      simp only [List.length_nil] at hlen
      omega
    have hdec : hexDecode (hexEncode (xorMask (tossKey E) env)) =
        .ok (xorMask (tossKey E) env) := hexDecode_hexEncode _ hxLt
    have hinv : xorMask (tossKey E) (xorMask (tossKey E) env) = env :=
      xorMask_xorMask _ _
    have h12 : 12 ≤ env.length := by
      rw [henv, List.length_append, Hn12]
      omega
    have htake : env.take 12 = nonce := by
      rw [henv, ← Hn12]
      exact List.take_left nonce sealed
    have hdrop : env.drop 12 = sealed := by
      rw [henv, ← Hn12]
      exact List.drop_left nonce sealed
    have hopen : E.openCt (E.sha256 E.byteKey) (env.take 12) (env.drop 12) =
        some padded := by
      rw [htake, hdrop, hsealed]
      exact hG.sealOpen _ _ _
    have hds : decryptString E E.byteKey env = some (trimSpace padded) :=
      decryptString_open_eq E E.byteKey env padded h12 hk32 hopen
    have htrim : trimSpace padded = pl :=
      trim_concat_spaces pl _ Hne Hhead.1 Hhead.2 Hlast.1 Hlast.2
    have hxpl : xorMask (configKey E) pl = c := xorMask_xorMask _ _
    have hdc : decryptConfig E env = some (.ok v) := by
      refine decryptConfig_ok_eq E env pl v ?_ ?_ ?_ hv0
      · rw [hds, htrim]
      · rw [hxpl]
        exact (hG.inflateInv v c Hc).1
      · rw [hxpl]
        exact (hG.inflateInv v c Hc).2
    refine ⟨by rw [hobf], ?_⟩
    rw [hobf]
    exact deobfuscateData_ok_eq E _ (xorMask (tossKey E) env) v hart_ne hdec
      (by rw [hinv]; exact hdc)

theorem c1_roundtrip_amended_witness :
    envW.compress [65] = .ok [65, 90] ∧
    (obfuscateData envW nonce0 [65]).1 = .ok () ∧
    deobfuscateData envW ((obfuscateData envW nonce0 [65]).2) =
      some (.ok (), [65]) :=
  ⟨rfl, c1_roundtrip_amended envW good_envW [65] nonce0 [65, 90] (by decide)
    (by decide) (by decide) rfl (by decide) (by decide) (by decide)⟩

/-- Claim C1 as stated is false: under the well-behaved environment `envC1x`
— a build whose derived config key begins with byte 0x58, so the compressed
stream's zlib header byte 0x78 is masked to the space byte 0x20 — obfuscating
`[65]` succeeds, but `strings.TrimSpace` inside `decryptString` strips that
leading masked byte along with the trailing padding.  The surviving bytes are
then XOR-unmasked one key position out of alignment, the reader rejects the
resulting header, and deobfuscation fails with "error creating zlib reader"
instead of returning `[65]`.  No swallowed-"unexpected EOF" rescue applies:
the loss is at the front of the stream, and `zlib.NewReader` fails before any
copying begins. -/
theorem c1_roundtrip_counterexample :
    GoodEnv envC1x ∧
    obfuscateData envC1x nonce0 [65] = (.ok (), artifactC1x) ∧
    deobfuscateData envC1x artifactC1x =
      some (.error "error creating zlib reader", []) ∧
    deobfuscateData envC1x artifactC1x ≠ some (.ok (), [65]) := by
  refine ⟨good_envC1x, rfl, rfl, ?_⟩
  intro h
  rw [show deobfuscateData envC1x artifactC1x =
    some (.error "error creating zlib reader", []) from rfl] at h
  injection h with h1
  injection h1 with h2 h3
  exact Except.noConfusion h2

/-- Claim C2 (amended): modifying one byte of a successfully obfuscated
artifact never yields a silent wrong result through the authenticated path,
but the failure is not surfaced as an authentication error.  If the modified
artifact no longer hex-decodes, the hex format error is returned; if it
decodes and the AEAD rejects the altered envelope, `deobfuscateData` returns
an error — but it is the "error creating zlib reader" error, because
`decryptString` swallows the authentication failure into an empty string that
then fails zlib reader creation. -/
theorem c2_tamper_amended (E : CryptoEnv) (hG : GoodEnv E)
    (v nonce artifact : List Nat) (i b : Nat)
    (_Hobf : obfuscateData E nonce v = (.ok (), artifact))
    (Hm : artifact.set i b ≠ []) :
    (∀ e, hexDecode (artifact.set i b) = .error e →
      deobfuscateData E (artifact.set i b) = some (.error e, [])) ∧
    (∀ dec, hexDecode (artifact.set i b) = .ok dec → 12 ≤ dec.length →
      E.openCt (E.sha256 E.byteKey) ((xorMask (tossKey E) dec).take 12)
        ((xorMask (tossKey E) dec).drop 12) = none →
      deobfuscateData E (artifact.set i b) =
        some (.error "error creating zlib reader", [])) := by
  constructor
  · intro e he
    simp [deobfuscateData, Hm, he]
  · intro dec hdec h12 hrej
    have h12' : 12 ≤ (xorMask (tossKey E) dec).length := by
      rw [xorMask_length]
      exact h12
    have hds : decryptString E E.byteKey (xorMask (tossKey E) dec) = some [] :=
      decryptString_reject_eq E E.byteKey _ h12' hrej
    have hdc : decryptConfig E (xorMask (tossKey E) dec) =
        some (.error "error creating zlib reader") := by
      have hx0 : xorMask (configKey E) ([] : List Nat) = [] := rfl
      simp [decryptConfig, hds, hx0, hG.emptyReader]
    simp [deobfuscateData, Hm, hdec, hdc]

/-- Claim C2 as stated is false at a concrete input: in the artifact obtained
by obfuscating `[65]` under the well-behaved environment `envA`, replacing
byte 26 — the hex digit character f (102) — with its uppercase form F (70) is
a single-byte change after which deobfuscation succeeds with no error at all
(standard hex decoding is case-insensitive), rather than failing with an
authentication error. -/
theorem c2_tamper_counterexample :
    GoodEnv envA ∧
    obfuscateData envA nonce0 [65] = (.ok (), artifactA) ∧
    artifactA.set 26 70 ≠ artifactA ∧
    deobfuscateData envA (artifactA.set 26 70) = some (.ok (), [65]) :=
  ⟨good_envA, rfl, by decide, rfl⟩

theorem c2_tamper_amended_witness :
    hexDecode (artifactA.set 26 48) =
      .ok [1, 1, 1, 1, 1, 1, 1, 1, 1, 1, 1, 1, 64, 14,
        33, 33, 33, 33, 33, 33, 33, 33, 33, 33, 33, 33, 33, 33, 1] ∧
    deobfuscateData envA (artifactA.set 26 48) =
      some (.error "error creating zlib reader", []) := by
  refine ⟨rfl, ?_⟩
  exact (c2_tamper_amended envA good_envA [65] nonce0 artifactA 26 48 rfl
    (by decide)).2
    [1, 1, 1, 1, 1, 1, 1, 1, 1, 1, 1, 1, 64, 14,
      33, 33, 33, 33, 33, 33, 33, 33, 33, 33, 33, 33, 33, 33, 1]
    rfl (by decide) rfl

/-- Claim C3 (amended): when the authentication tag does not verify,
`decryptString` does not return an explicit error — its only output is the
string, and it returns the empty string (the failure is merely logged); the
error surfaces to callers only indirectly, through the empty string failing
the subsequent zlib-reader stage. -/
theorem c3_open_amended (E : CryptoEnv) (pw ct : List Nat)
    (h12 : 12 ≤ ct.length)
    (hopen : E.openCt (E.sha256 pw) (ct.take 12) (ct.drop 12) = none) :
    decryptString E pw ct = some [] :=
  decryptString_reject_eq E pw ct h12 hopen

/-- Claim C3 as stated is false at a concrete input: under `envA` the key is
32 bytes, the envelope `ctC3` fails tag verification, and `decryptString`
silently returns the zero-length string — there is no error channel in its
result at all. -/
theorem c3_open_counterexample :
    (envA.sha256 [1]).length = 32 ∧
    envA.openCt (envA.sha256 [1]) (ctC3.take 12) (ctC3.drop 12) = none ∧
    decryptString envA [1] ctC3 = some [] :=
  ⟨rfl, rfl, rfl⟩

theorem c3_open_amended_witness :
    12 ≤ ctC3.length ∧ decryptString envA [1] ctC3 = some [] :=
  ⟨by decide, c3_open_amended envA [1] ctC3 (by decide) rfl⟩

/-- Claim C4 (amended): after successful authentication the decrypted
plaintext is passed through `strings.TrimSpace`, which trims whitespace from
BOTH ends — ASCII whitespace bytes on the fast path and Unicode whitespace
runes in the UTF-8 fallback — so the result is always a contiguous infix of
the plaintext; for plaintexts of ASCII bytes, exactly the bytes from the
first through the last non-whitespace byte are returned unchanged.  It is not
true that only trailing padding/whitespace is trimmed. -/
theorem c4_trim_amended (E : CryptoEnv) (pw ct pt : List Nat)
    (h12 : 12 ≤ ct.length) (hk : (E.sha256 pw).length = 32)
    (hopen : E.openCt (E.sha256 pw) (ct.take 12) (ct.drop 12) = some pt) :
    decryptString E pw ct = some (trimSpace pt) ∧
    (∃ a b, pt = a ++ trimSpace pt ++ b) ∧
    ((∀ x ∈ pt, x < 128) →
      trimSpace pt = trimAscii pt ∧
      ∃ a b, pt = a ++ trimAscii pt ++ b ∧ (∀ x ∈ a, isSpace x = true) ∧
        (∀ x ∈ b, isSpace x = true) ∧
        (∀ x, (trimAscii pt).head? = some x → isSpace x = false) ∧
        (∀ x, (trimAscii pt).getLast? = some x → isSpace x = false)) := by
  refine ⟨decryptString_open_eq E pw ct pt h12 hk hopen, trimSpace_infix pt, ?_⟩
  intro hascii
  exact ⟨trimSpace_ascii pt hascii, trimAscii_decomposition pt⟩

/-- Claim C4 as stated is false at a concrete input: the envelope `ctC4`
authenticates under `envA` and decrypts to `[32, 65]` (a space then A); the
claim requires the prefix up to the last non-whitespace byte — `[32, 65]`
itself — to be returned unchanged, but `decryptString` also strips the
leading space and returns `[65]`. -/
theorem c4_trim_counterexample :
    envA.openCt (envA.sha256 [1]) (ctC4.take 12) (ctC4.drop 12) = some [32, 65] ∧
    decryptString envA [1] ctC4 = some [65] ∧
    specRightTrimOnly [32, 65] = [32, 65] ∧
    decryptString envA [1] ctC4 ≠ some (specRightTrimOnly [32, 65]) :=
  ⟨rfl, rfl, rfl, by decide⟩

theorem c4_trim_amended_witness :
    12 ≤ ctC4.length ∧
    (decryptString envA [1] ctC4 = some (trimSpace [32, 65]) ∧
    (∃ a b, [32, 65] = a ++ trimSpace [32, 65] ++ b) ∧
    ((∀ x ∈ [32, 65], x < 128) →
      trimSpace [32, 65] = trimAscii [32, 65] ∧
      ∃ a b, [32, 65] = a ++ trimAscii [32, 65] ++ b ∧
        (∀ x ∈ a, isSpace x = true) ∧ (∀ x ∈ b, isSpace x = true) ∧
        (∀ x, (trimAscii [32, 65]).head? = some x → isSpace x = false) ∧
        (∀ x, (trimAscii [32, 65]).getLast? = some x → isSpace x = false))) :=
  ⟨by decide, c4_trim_amended envA [1] ctC4 [32, 65] (by decide) rfl rfl⟩

/-- Claim C5 (confirmed): in `decryptConfig`, an "unexpected EOF" from the
inflate copy is treated as successful completion with whatever bytes were
copied (subject only to the separate empty-result check), while any other
copy error aborts with a propagated error. -/
theorem c5_unexpected_eof (E : CryptoEnv) (ct s buf : List Nat) (e : String)
    (Hs : decryptString E E.byteKey ct = some s)
    (Hr : E.newReaderOk (xorMask (configKey E) s) = true) :
    (E.inflate (xorMask (configKey E) s) = (buf, some "unexpected EOF") →
      decryptConfig E ct =
        some (if buf = [] then .error "decrypted config is empty"
          else .ok buf)) ∧
    (E.inflate (xorMask (configKey E) s) = (buf, some e) →
      e ≠ "unexpected EOF" →
      decryptConfig E ct =
        some (.error ("error decrypting or decompressing zlib data: " ++ e))) := by
  constructor
  · intro hi
    by_cases hb : buf = [] <;> simp [decryptConfig, Hs, Hr, hi, hb]
  · intro hi hne
    simp [decryptConfig, Hs, Hr, hi, hne]

theorem c5_unexpected_eof_witness :
    decryptString envE envE.byteKey ctC5 = some [65, 255] ∧
    decryptConfig envE ctC5 = some (.ok [65]) := by
  refine ⟨rfl, ?_⟩
  have h := (c5_unexpected_eof envE ctC5 [65, 255] [65] "x" rfl rfl).1 rfl
  simpa using h

/-- Claim C6 (confirmed): on the empty value both operations are the
identity with no error; the result holds for every environment whatsoever,
which formalizes that no compression, XOR, cipher or encoding stage is
consulted. -/
theorem c6_empty_identity (E : CryptoEnv) (nonce : List Nat) :
    obfuscateData E nonce [] = (.ok (), []) ∧
    deobfuscateData E [] = some (.ok (), []) :=
  ⟨rfl, rfl⟩

/-- Claim C7 (confirmed): the derived secret key is the secret verbatim when
it is at least 64 bytes long and its SHA-256 digest otherwise, and the cipher
key used by `encryptString` is always the SHA-256 digest of the password
(32 bytes, making the key-length guard pass), regardless of password
length. -/
theorem c7_key_derivation (E : CryptoEnv) (s pw nonce pt : List Nat) :
    (64 ≤ s.length → configKeyOf E s = s) ∧
    (s.length < 64 → configKeyOf E s = E.sha256 s) ∧
    ((E.sha256 pw).length = 32 →
      encryptString E pw nonce pt =
        nonce ++ E.sealCt (E.sha256 pw) nonce
          (pt ++ List.replicate (16 - pt.length % 16) 32)) := by
  refine ⟨?_, ?_, ?_⟩
  · intro h
    unfold configKeyOf
    rw [if_neg (by omega)]
  · intro h
    unfold configKeyOf
    rw [if_pos h]
  · intro hk
    exact encryptString_seal_eq E pw nonce pt hk

theorem c7_key_derivation_witness :
    configKeyOf envA (List.replicate 64 7) = List.replicate 64 7 ∧
    configKeyOf envA [1] = envA.sha256 [1] ∧
    encryptString envA [1] nonce0 [65] =
      nonce0 ++ envA.sealCt (envA.sha256 [1]) nonce0
        ([65] ++ List.replicate 15 32) := by
  refine ⟨(c7_key_derivation envA (List.replicate 64 7) [1] nonce0 [65]).1
    (by decide),
    (c7_key_derivation envA [1] [1] nonce0 [65]).2.1 (by decide), ?_⟩
  have h := (c7_key_derivation envA [1] [1] nonce0 [65]).2.2 (by decide)
  exact h

/-- Claim C8 (confirmed): when the decompression stage copies out an empty
byte sequence (with no error, or only the swallowed "unexpected EOF"),
`decryptConfig` rejects it with the "decrypted config is empty" error rather
than returning an empty success. -/
theorem c8_empty_decompress_rejected (E : CryptoEnv) (ct s : List Nat)
    (eo : Option String)
    (Hs : decryptString E E.byteKey ct = some s)
    (Hr : E.newReaderOk (xorMask (configKey E) s) = true)
    (Hi : E.inflate (xorMask (configKey E) s) = ([], eo))
    (Heo : eo = none ∨ eo = some "unexpected EOF") :
    decryptConfig E ct = some (.error "decrypted config is empty") := by
  rcases Heo with h | h <;> subst h <;> simp [decryptConfig, Hs, Hr, Hi]

theorem c8_empty_decompress_rejected_witness :
    decryptString envE2 envE2.byteKey ctC5 = some [65, 255] ∧
    decryptConfig envE2 ctC5 = some (.error "decrypted config is empty") :=
  ⟨rfl, c8_empty_decompress_rejected envE2 ctC5 [65, 255] none rfl rfl rfl
    (Or.inl rfl)⟩

/-- Claim C9 (confirmed): a non-empty datum that hex-decodes to fewer than 12
bytes does not reach any error return — the unguarded 12-byte nonce slice in
`decryptString` is out of range, and the resulting panic (the model's `none`)
propagates out of `deobfuscateData`. -/
theorem c9_short_envelope_panics (E : CryptoEnv) (datum d : List Nat)
    (H0 : datum ≠ []) (Hd : hexDecode datum = .ok d) (Hlt : d.length < 12) :
    deobfuscateData E datum = none := by
  have h : (xorMask (tossKey E) d).length < 12 := by
    rw [xorMask_length]
    exact Hlt
  have hds : decryptString E E.byteKey (xorMask (tossKey E) d) = none := by
    simp [decryptString, h]
  have hdc : decryptConfig E (xorMask (tossKey E) d) = none := by
    simp [decryptConfig, hds]
  simp [deobfuscateData, H0, Hd, hdc]

theorem c9_short_envelope_panics_witness :
    hexDecode [48, 48] = .ok [0] ∧ deobfuscateData envA [48, 48] = none :=
  ⟨rfl, c9_short_envelope_panics envA [48, 48] [0] (by decide) rfl (by decide)⟩

/-- Claim C10 (confirmed): whenever `obfuscateData` returns an error the
datum has been overwritten with the empty string, and whenever
`deobfuscateData` returns an error from the decryption/decompression stage
(that is, after the hex decode succeeded) the datum is likewise left empty. -/
theorem c10_error_atomicity (E : CryptoEnv) :
    (∀ nonce datum e, (obfuscateData E nonce datum).1 = .error e →
      obfuscateData E nonce datum = (.error e, [])) ∧
    (∀ datum dec e p, datum ≠ [] → hexDecode datum = .ok dec →
      deobfuscateData E datum = some p → p.1 = .error e →
      deobfuscateData E datum = some (.error e, [])) := by
  constructor
  · intro nonce datum e h
    by_cases h0 : datum = []
    · subst h0
      simp [obfuscateData] at h
    · cases he : encryptConfig E nonce datum with
      | ok enc =>
        rw [obfuscateData_ok_eq E nonce datum enc h0 he] at h
        simp at h
      | error e' =>
        rw [obfuscateData_err_eq E nonce datum e' h0 he] at h
        simp at h
        rw [obfuscateData_err_eq E nonce datum e' h0 he, h]
  · intro datum dec e p h0 hdec hp hpe
    cases hdc : decryptConfig E (xorMask (tossKey E) dec) with
    | none =>
      rw [deobfuscateData_none_eq E datum dec h0 hdec hdc] at hp
      exact Option.noConfusion hp
    | some r =>
      cases r with
      | error e' =>
        rw [deobfuscateData_err_eq E datum dec e' h0 hdec hdc] at hp
        injection hp with hp1
        subst hp1
        simp at hpe
        rw [deobfuscateData_err_eq E datum dec e' h0 hdec hdc, hpe]
      | ok w =>
        rw [deobfuscateData_ok_eq E datum dec w h0 hdec hdc] at hp
        injection hp with hp1
        subst hp1
        simp at hpe

theorem c10_error_atomicity_witness :
    obfuscateData envF nonce0 [65] = (.error "boom", []) ∧
    deobfuscateData envF datumC10 =
      some (.error "error creating zlib reader", []) := by
  constructor
  · exact (c10_error_atomicity envF).1 nonce0 [65] "boom" rfl
  · exact (c10_error_atomicity envF).2 datumC10 (List.replicate 13 1)
      "error creating zlib reader" (.error "error creating zlib reader", [])
      (by decide) rfl rfl rfl
